import Mathlib

/-
Verification of the Crawler-ai repository: a shallow embedding of
`src/utils.py` (link dedup, href extraction, URL classification) and of the
pure decision logic of the two request handlers in `src/app.py`
(`/crawl` and `/fetch_link`), together with theorems settling the
specification's claims about them.
-/

namespace Crawler

/-! ## Definitions -/

/-- A link record extracted from an anchor element.  In the Python source a
link is a dict that may or may not carry the keys `"href"` and `"text"`;
`none` models an absent key. -/
structure Link where
  href : Option String
  text : Option String
deriving DecidableEq, Repr

/-- Python `s.split("#")[0]`: the part of `s` before the first `'#'`
(the whole of `s` when it has no `'#'`). -/
def stripFragment (s : String) : String :=
  String.mk (s.data.takeWhile (fun c => c ≠ '#'))

/-- The dedup key of a link: `link.get("href", "").split("#")[0]`
(`utils.py` line 6). -/
def linkKey (l : Link) : String :=
  stripFragment (l.href.getD "")

/-- One iteration of the loop body of `remove_duplicate_links`
(`utils.py` lines 5-8): the insertion-ordered dict `unique_links` is
modelled as an association list, extended at the end exactly when the key
is truthy (non-empty) and not yet present. -/
def dedupStep (unique : List (String × Link)) (link : Link) : List (String × Link) :=
  let href := linkKey link
  if href ≠ "" ∧ unique.lookup href = none then unique ++ [(href, link)] else unique

/-- `utils.remove_duplicate_links` (`utils.py` lines 3-9): build the dict by
folding the loop body over the input, then take `list(unique_links.values())`
(insertion order). -/
def remove_duplicate_links (links : List Link) : List Link :=
  (links.foldl dedupStep []).map Prod.snd

/-- `utils.extract_links` (`utils.py` lines 11-12):
`[link["href"] for link in links if "href" in link]`. -/
def extract_links (links : List Link) : List String :=
  links.filterMap (fun link => link.href)

/-- Recursive form of `remove_duplicate_links`: `seen` is the set of keys
already stored in the dict.  Proved below to agree with the fold. -/
def rdlAux (seen : List String) : List Link → List Link
  | [] => []
  | l :: ls =>
    if linkKey l ≠ "" ∧ linkKey l ∉ seen then l :: rdlAux (linkKey l :: seen) ls
    else rdlAux seen ls

/-- Transcription of the spec's words (§4.3): stable dedup keyed on `href`
with the fragment stripped; an entry with an empty key is excluded entirely;
the first-seen entry for a key is retained and every later entry with the
same key contributes nothing; output order is first-occurrence order. -/
def dedup_spec : List Link → List Link
  | [] => []
  | l :: ls =>
    if linkKey l = "" then dedup_spec ls
    else l :: dedup_spec (ls.filter (fun x => linkKey x ≠ linkKey l))
termination_by ls => ls.length
decreasing_by
· simp only [List.length_cons]
  omega
· simp only [List.length_cons]
  exact Nat.lt_succ_of_le (List.length_filter_le _ _)

/-- Python's `scheme_chars`: ASCII letters, digits, and `'+'`, `'-'`, `'.'`. -/
def isSchemeChar (c : Char) : Bool :=
  c.isAlpha || c.isDigit || c == '+' || c == '-' || c == '.'

/-- WHATWG C0 control or space: code points `0x00` through `0x20`;
`urlsplit` strips these from the left of the URL. -/
def isC0OrSpace (c : Char) : Bool := c.toNat ≤ 32

/-- The bytes `urlsplit` deletes anywhere in the URL: tab, CR, LF. -/
def isDeletedUrlByte (c : Char) : Bool := c == '\t' || c == '\r' || c == '\n'

/-- Scheme split of `urlsplit`: when the first `':'` sits at a positive
index, the first character is an ASCII letter and everything before the
colon is a scheme character, the scheme (lower-cased) is split off;
otherwise the scheme is empty and the URL is untouched. -/
def splitScheme (cs : List Char) : List Char × List Char :=
  match cs.findIdx? (· == ':') with
  | some i =>
    if 0 < i ∧ (cs.headD ':').isAlpha ∧ (cs.take i).all isSchemeChar
    then ((cs.take i).map Char.toLower, cs.drop (i + 1))
    else ([], cs)
  | none => ([], cs)

/-- `_splitnetloc` applied after `"//"`: the netloc runs to the first of
`'/'`, `'?'`, `'#'`; the remainder (starting at that delimiter) is returned
alongside it. -/
def splitNetloc (cs : List Char) : List Char × List Char :=
  let netloc := cs.takeWhile (fun c => !(c == '/' || c == '?' || c == '#'))
  (netloc, cs.drop netloc.length)

/-- The schemes for which `urlparse` separates `;params` from the path. -/
def uses_params : List String :=
  ["", "ftp", "hdl", "prospero", "http", "imap", "https", "shttp", "rtsp",
   "rtsps", "rtspu", "sip", "sips", "mms", "sftp", "tel"]

/-- `_splitparams`: when the path has a `'/'`, drop the `;params` suffix of
its last segment if that segment has one; otherwise drop everything from the
first `';'`. -/
def splitParams (cs : List Char) : List Char :=
  if cs.contains '/' then
    let seg := (cs.reverse.takeWhile (fun c => c ≠ '/')).reverse
    if seg.contains ';'
    then cs.take (cs.length - seg.length) ++ seg.takeWhile (fun c => c ≠ ';')
    else cs
  else cs.takeWhile (fun c => c ≠ ';')

/-- The `path` component of `urllib.parse.urlparse` (CPython) on a string:
left-strip C0 controls and space, delete tab/CR/LF, split off a scheme,
split off a netloc after `"//"`, cut the fragment at the first `'#'` and
then the query at the first `'?'` of what remains, and split `;params` off
the path for the schemes that use them.  `none` models the parser raising
(mismatched IPv6 brackets in the netloc); the NFKC netloc check and
bracketed-host validation, which reject only exotic hosts, are not
modelled. -/
def urlparse_path (url : String) : Option String :=
  let cs := (url.data.dropWhile isC0OrSpace).filter (fun c => !(isDeletedUrlByte c))
  let sp := splitScheme cs
  let nl :=
    match sp.2 with
    | '/' :: '/' :: r => splitNetloc r
    | r => ([], r)
  if (nl.1.contains '[' && !(nl.1.contains ']'))
      || (nl.1.contains ']' && !(nl.1.contains '[')) then none
  else
    let pq := (nl.2.takeWhile (fun c => c ≠ '#')).takeWhile (fun c => c ≠ '?')
    some (String.mk
      (if uses_params.contains (String.mk sp.1) && pq.contains ';'
       then splitParams pq else pq))

/-- `utils.classify_url` (`utils.py` lines 15-21): parse the URL and return
`"Website"` when the path is empty or exactly `"/"`, else `"Web Page"`.
`none` models the parse exception propagating out of the function. -/
def classify_url (url : String) : Option String :=
  match urlparse_path url with
  | none => none
  | some p => if p = "" ∨ p = "/" then some "Website" else some "Web Page"

/-- A meta-tag record: the three attribute slots read per `<meta>` element;
`none` models a missing attribute (`getAttribute` returning null). -/
structure MetaTag where
  name : Option String
  property : Option String
  content : Option String
deriving DecidableEq, Repr

/-- The raw artifact bundle the browser steps produce inside the `try`
block, before any capping: title, serialized HTML, visible body text, raw
link list, raw meta-tag list. -/
structure RawExtract where
  title : String
  content : String
  text : String
  links : List Link
  meta_tags : List MetaTag
deriving DecidableEq

/-- The `result` dict built by the `/crawl` handler (`app.py` lines
116-124). -/
structure CrawlResult where
  url : String
  title : String
  text : String
  links : List Link
  meta_tags : List MetaTag
  html_length : Nat
  crawl_time : Int
deriving DecidableEq

/-- `request.url.startswith(('http://', 'https://'))`: the URL begins with
one of the two schemes (a string starts with `pre` iff its first
`len(pre)` characters are exactly `pre`). -/
def valid_scheme (url : String) : Bool :=
  url.data.take 7 == "http://".data || url.data.take 8 == "https://".data

/-- Construction of the `result` dict (`app.py` lines 116-124): truncate the
text beyond 10,000 characters, keep only the first 100 links, measure the
raw HTML length, and record elapsed wall-clock time `t1 - t0` (clock samples
are modelled as integers). -/
def mkCrawlResult (url : String) (raw : RawExtract) (t0 t1 : Int) : CrawlResult :=
  ⟨url, raw.title,
   if raw.text.length > 10000 then raw.text.take 10000 else raw.text,
   if raw.links.length > 100 then raw.links.take 100 else raw.links,
   raw.meta_tags, raw.content.length, t1 - t0⟩

/-- The observable outcome of the `/crawl` handler: a raised
`HTTPException(400)`, a normal 200 body with the result bundle, or a normal
200 body of shape `{error, url}`. -/
inductive CrawlResponse
  | badRequest (detail : String)
  | ok (result : CrawlResult)
  | errorBody (error : String) (url : String)
deriving DecidableEq

/-- The `/crawl` handler (`app.py` lines 60-134).  The browser-driven part
of the pipeline is abstracted as its outcome: `.ok raw` when every await
succeeds with artifacts `raw`, `.error e` when any step of launch,
navigation or DOM reading raises with message `e`.  Scheme validation
raises 400 before the `try` block; inside it, any exception is caught and
turned into the `{error, url}` body. -/
def crawl (url : String) (pipeline : Except String RawExtract)
    (t0 t1 : Int) : CrawlResponse :=
  if valid_scheme url = false then
    .badRequest "URL must start with http:// or https://"
  else
    match pipeline with
    | .ok raw => .ok (mkCrawlResult url raw t0 t1)
    | .error e => .errorBody ("Error during crawling: " ++ e) url

/-- The observable outcome of the `/fetch_link` handler: the echoed URL
(inner-page short-circuit), a raised `HTTPException(400)`, the flattened
link list, the `{error, url}` body, or a 500 from the global handler when
`classify_url` itself raises. -/
inductive FetchLinkResponse
  | passthrough (url : String)
  | badRequest (detail : String)
  | links (data : List String)
  | errorBody (error : String) (url : String)
  | serverError
deriving DecidableEq

/-- The `/fetch_link` handler (`app.py` lines 191-270): classify first and
echo the URL for anything that is not `"Website"`; then validate the
scheme; then run the same pipeline as `/crawl` but return
`extract_links(remove_duplicate_links(links))` computed from the raw,
uncapped link list (the capped `result` dict is built and discarded). -/
def fetch_link (url : String) (pipeline : Except String RawExtract) :
    FetchLinkResponse :=
  match classify_url url with
  | none => .serverError
  | some c =>
    if c ≠ "Website" then .passthrough url
    else if valid_scheme url = false then
      .badRequest "URL must start with http:// or https://"
    else
      match pipeline with
      | .ok raw => .links (extract_links (remove_duplicate_links raw.links))
      | .error e => .errorBody ("Error during crawling: " ++ e) url

/-- `n` links with pairwise distinct, non-empty, fragment-free hrefs
(`"a"`, `"aa"`, `"aaa"`, ...), exhibiting raw link lists of any size that
the dedup keeps whole. -/
def mkLinks (n : Nat) : List Link :=
  (List.range n).map
    (fun i => ⟨some (String.mk (List.replicate (i + 1) 'a')), some ""⟩)

/-- Observable resource and response events of one request, in order of
occurrence.  `released` stands for the exit of the
`async with async_playwright()` block: stopping Playwright terminates the
driver and with it the launched browser process and its browsing
contexts. -/
inductive Ev
  | launched
  | ctxCreated
  | pageCreated
  | navigated
  | domRead (k : Nat)
  | browserClosed
  | released
  | responded
  | errorResponded
deriving DecidableEq, Repr

/-- The ten awaited browser steps of the handler body in program order:
launch, new_context, new_page, goto, the five DOM reads (title, content,
text, links, meta tags), and the explicit browser.close on success. -/
def bodySteps : List Ev :=
  [.launched, .ctxCreated, .pageCreated, .navigated, .domRead 0, .domRead 1,
   .domRead 2, .domRead 3, .domRead 4, .browserClosed]

/-- The body of the `async with` block: `fate = none` runs all steps and
completes; `fate = some k` raises at step `k`, so only the steps before `k`
produce events.  The Bool records normal completion. -/
def runBody (fate : Option (Fin 10)) : List Ev × Bool :=
  match fate with
  | none => (bodySteps, true)
  | some k => (bodySteps.take k.val, false)

/-- `async with async_playwright() as p`: on both normal and exceptional
exit of the body, `__aexit__` stops Playwright — the release event — before
control leaves the block; whether an exception is propagating is
unchanged. -/
def withPlaywright (body : List Ev × Bool) : List Ev × Bool :=
  (body.1 ++ [Ev.released], body.2)

/-- The `try/except` around the block: normal completion returns the result
body; a propagated exception is caught and answered with the `{error, url}`
body. -/
def tryExcept (r : List Ev × Bool) : List Ev :=
  if r.2 then r.1 ++ [Ev.responded] else r.1 ++ [Ev.errorResponded]

/-- Event trace of the `/crawl` handler for a given fate of the browser
steps (`app.py` lines 71-134). -/
def crawlTrace (fate : Option (Fin 10)) : List Ev :=
  tryExcept (withPlaywright (runBody fate))

/-- Event trace of the `/fetch_link` handler (`app.py` lines 192-270):
`inner = true` is the short-circuit branch, answering before any browser
work; otherwise the guarded body is the same as `/crawl`'s. -/
def fetchLinkTrace (inner : Bool) (fate : Option (Fin 10)) : List Ev :=
  if inner then [Ev.responded] else tryExcept (withPlaywright (runBody fate))

/-! ## Helper lemmas -/

lemma dedupStep_eq (unique : List (String × Link)) (link : Link) :
    dedupStep unique link =
      if linkKey link ≠ "" ∧ unique.lookup (linkKey link) = none
      then unique ++ [(linkKey link, link)] else unique := rfl

lemma lookup_eq_none_iff (d : List (String × Link)) (k : String) :
    d.lookup k = none ↔ k ∉ d.map Prod.fst := by
  induction d with
  | nil => simp
  | cons p d ih =>
    cases p with
    | mk k' v =>
      by_cases h : k = k'
      · subst h
        simp [List.lookup_cons]
      · have hb : (k == k') = false := beq_eq_false_iff_ne.mpr h
        rw [List.lookup_cons, hb, List.map_cons, List.mem_cons]
        simp only [ih, h, false_or]

lemma rdlAux_congr (s t : List String) (h : ∀ k, k ∈ s ↔ k ∈ t) :
    ∀ ls, rdlAux s ls = rdlAux t ls := by
  intro ls
  induction ls generalizing s t with
  | nil => simp [rdlAux]
  | cons l ls ih =>
    by_cases hk : linkKey l ≠ "" ∧ linkKey l ∉ s
    · have hk' : linkKey l ≠ "" ∧ linkKey l ∉ t := ⟨hk.1, fun hm => hk.2 ((h _).2 hm)⟩
      rw [rdlAux, rdlAux, if_pos hk, if_pos hk']
      have : ∀ k, k ∈ linkKey l :: s ↔ k ∈ linkKey l :: t := by
        intro k; simp [h k]
      rw [ih _ _ this]
    · have hk' : ¬ (linkKey l ≠ "" ∧ linkKey l ∉ t) := by
        intro hc
        exact hk ⟨hc.1, fun hm => hc.2 ((h _).1 hm)⟩
      rw [rdlAux, rdlAux, if_neg hk, if_neg hk']
      exact ih _ _ h

lemma foldl_dedupStep (links : List Link) :
    ∀ acc : List (String × Link),
      (links.foldl dedupStep acc).map Prod.snd
        = acc.map Prod.snd ++ rdlAux (acc.map Prod.fst) links := by
  induction links with
  | nil => intro acc; simp [rdlAux]
  | cons l ls ih =>
    intro acc
    rw [List.foldl_cons]
    by_cases h : linkKey l ≠ "" ∧ acc.lookup (linkKey l) = none
    · have hstep : dedupStep acc l = acc ++ [(linkKey l, l)] := by
        rw [dedupStep_eq, if_pos h]
      have hnot : linkKey l ∉ acc.map Prod.fst := (lookup_eq_none_iff acc _).1 h.2
      rw [hstep, ih]
      have hcongr : rdlAux ((acc ++ [(linkKey l, l)]).map Prod.fst) ls
          = rdlAux (linkKey l :: acc.map Prod.fst) ls := by
        apply rdlAux_congr
        intro k; simp [or_comm]
      rw [hcongr]
      have hrdl : rdlAux (acc.map Prod.fst) (l :: ls)
          = l :: rdlAux (linkKey l :: acc.map Prod.fst) ls := by
        rw [rdlAux, if_pos ⟨h.1, hnot⟩]
      rw [hrdl]
      simp
    · have hstep : dedupStep acc l = acc := by
        rw [dedupStep_eq, if_neg h]
      have hcond : ¬ (linkKey l ≠ "" ∧ linkKey l ∉ acc.map Prod.fst) := by
        intro hc
        exact h ⟨hc.1, (lookup_eq_none_iff acc _).2 hc.2⟩
      rw [hstep, ih]
      have hrdl : rdlAux (acc.map Prod.fst) (l :: ls)
          = rdlAux (acc.map Prod.fst) ls := by
        rw [rdlAux, if_neg hcond]
      rw [hrdl]

/-- The fold-based source function equals the recursive characterisation. -/
lemma remove_duplicate_links_eq_rdlAux (links : List Link) :
    remove_duplicate_links links = rdlAux [] links := by
  have h := foldl_dedupStep links []
  simpa [remove_duplicate_links] using h

lemma rdlAux_eq_dedup_spec (ls : List Link) :
    ∀ seen : List String,
      rdlAux seen ls = dedup_spec (ls.filter (fun x => linkKey x ∉ seen)) := by
  induction ls with
  | nil => intro seen; simp [rdlAux, dedup_spec]
  | cons l ls ih =>
    intro seen
    by_cases hm : linkKey l ∈ seen
    · have hfilter : (l :: ls).filter (fun x => linkKey x ∉ seen)
          = ls.filter (fun x => linkKey x ∉ seen) := by
        rw [List.filter_cons]
        simp [hm]
      have hcond : ¬ (linkKey l ≠ "" ∧ linkKey l ∉ seen) := fun hc => hc.2 hm
      rw [rdlAux, if_neg hcond, hfilter, ih]
    · have hfilter : (l :: ls).filter (fun x => linkKey x ∉ seen)
          = l :: ls.filter (fun x => linkKey x ∉ seen) := by
        rw [List.filter_cons]
        simp [hm]
      by_cases he : linkKey l = ""
      · have hcond : ¬ (linkKey l ≠ "" ∧ linkKey l ∉ seen) := fun hc => hc.1 he
        rw [rdlAux, if_neg hcond, hfilter, dedup_spec, if_pos he, ih]
      · rw [rdlAux, if_pos ⟨he, hm⟩, hfilter, dedup_spec, if_neg he, ih]
        have hff : (ls.filter (fun x => linkKey x ∉ seen)).filter
              (fun x => linkKey x ≠ linkKey l)
            = ls.filter (fun x => linkKey x ∉ linkKey l :: seen) := by
          rw [List.filter_filter]
          apply List.filter_congr
          intro x _
          by_cases h1 : linkKey x = linkKey l
          · simp [h1]
          · by_cases h2 : linkKey x ∈ seen <;> simp [h1, h2]
        rw [hff]

lemma rdlAux_sublist (seen : List String) (ls : List Link) :
    (rdlAux seen ls).Sublist ls := by
  induction ls generalizing seen with
  | nil => simp [rdlAux]
  | cons l ls ih =>
    by_cases h : linkKey l ≠ "" ∧ linkKey l ∉ seen
    · rw [rdlAux, if_pos h]
      exact (ih _).cons₂ l
    · rw [rdlAux, if_neg h]
      exact (ih _).cons l

lemma rdlAux_mem (seen : List String) (ls : List Link) :
    ∀ l ∈ rdlAux seen ls, linkKey l ≠ "" ∧ linkKey l ∉ seen := by
  induction ls generalizing seen with
  | nil => simp [rdlAux]
  | cons l ls ih =>
    by_cases h : linkKey l ≠ "" ∧ linkKey l ∉ seen
    · rw [rdlAux, if_pos h]
      intro x hx
      rcases List.mem_cons.1 hx with rfl | hx
      · exact h
      · have hx' := ih _ x hx
        exact ⟨hx'.1, fun hs => hx'.2 (List.mem_cons_of_mem _ hs)⟩
    · rw [rdlAux, if_neg h]
      exact ih seen

lemma rdlAux_keys_nodup (seen : List String) (ls : List Link) :
    ((rdlAux seen ls).map linkKey).Nodup := by
  induction ls generalizing seen with
  | nil => simp [rdlAux]
  | cons l ls ih =>
    by_cases h : linkKey l ≠ "" ∧ linkKey l ∉ seen
    · rw [rdlAux, if_pos h, List.map_cons, List.nodup_cons]
      refine ⟨?_, ih _⟩
      intro hmem
      rcases List.mem_map.1 hmem with ⟨x, hx, hkx⟩
      exact (rdlAux_mem _ _ x hx).2 (by rw [hkx]; exact List.mem_cons_self _ _)
    · rw [rdlAux, if_neg h]
      exact ih seen

lemma rdlAux_eq_self (ls : List Link) :
    ∀ seen : List String,
      (∀ l ∈ ls, linkKey l ≠ "") → (ls.map linkKey).Nodup →
      (∀ l ∈ ls, linkKey l ∉ seen) → rdlAux seen ls = ls := by
  induction ls with
  | nil => intro seen _ _ _; rfl
  | cons l ls ih =>
    intro seen h1 h2 h3
    have hl : linkKey l ≠ "" ∧ linkKey l ∉ seen :=
      ⟨h1 l (List.mem_cons_self _ _), h3 l (List.mem_cons_self _ _)⟩
    rw [rdlAux, if_pos hl]
    congr 1
    rw [List.map_cons, List.nodup_cons] at h2
    apply ih
    · intro x hx; exact h1 x (List.mem_cons_of_mem _ hx)
    · exact h2.2
    · intro x hx
      rw [List.mem_cons]
      rintro (hk | hk)
      · exact h2.1 (hk ▸ List.mem_map_of_mem linkKey hx)
      · exact h3 x (List.mem_cons_of_mem _ hx) hk

lemma href_isSome_of_key_ne (l : Link) (h : linkKey l ≠ "") : l.href.isSome := by
  cases hh : l.href with
  | none =>
    exfalso
    apply h
    simp [linkKey, hh, stripFragment]
  | some s => simp

lemma extract_links_eq_map (ls : List Link) (h : ∀ l ∈ ls, l.href.isSome) :
    extract_links ls = ls.map (fun l => l.href.getD "") := by
  induction ls with
  | nil => rfl
  | cons l ls ih =>
    have hl := h l (List.mem_cons_self _ _)
    rcases Option.isSome_iff_exists.1 hl with ⟨s, hs⟩
    have ih' := ih (fun x hx => h x (List.mem_cons_of_mem _ hx))
    simp only [extract_links] at ih' ⊢
    rw [List.filterMap_cons, hs, List.map_cons, ih', hs]
    simp

lemma mem_extract_ne_empty (ls : List Link) (h : ∀ l ∈ ls, linkKey l ≠ "")
    (s : String) (hs : s ∈ extract_links ls) : s ≠ "" := by
  rcases List.mem_filterMap.1 hs with ⟨l, hl, hfl⟩
  intro hemp
  apply h l hl
  subst hemp
  simp only [linkKey, hfl]
  rfl

lemma extract_nodup (ls : List Link) (hkeys : (ls.map linkKey).Nodup)
    (hsome : ∀ l ∈ ls, l.href.isSome) : (extract_links ls).Nodup := by
  rw [extract_links_eq_map ls hsome]
  have hmm : ls.map linkKey = (ls.map (fun l => l.href.getD "")).map stripFragment := by
    rw [List.map_map]
    rfl
  rw [hmm] at hkeys
  exact hkeys.of_map _

lemma crawl_eq_of_invalid (url : String) (pipeline : Except String RawExtract)
    (t0 t1 : Int) (hv : valid_scheme url = false) :
    crawl url pipeline t0 t1
      = .badRequest "URL must start with http:// or https://" := by
  unfold crawl
  rw [hv]
  simp

lemma crawl_eq_of_valid (url : String) (pipeline : Except String RawExtract)
    (t0 t1 : Int) (hv : valid_scheme url = true) :
    crawl url pipeline t0 t1
      = match pipeline with
        | .ok raw => .ok (mkCrawlResult url raw t0 t1)
        | .error e => .errorBody ("Error during crawling: " ++ e) url := by
  unfold crawl
  rw [hv]
  simp

lemma fetch_link_eq_not_website (url : String)
    (pipeline : Except String RawExtract) (c : String)
    (hc : classify_url url = some c) (hne : c ≠ "Website") :
    fetch_link url pipeline = .passthrough url := by
  unfold fetch_link
  rw [hc]
  simp [hne]

lemma fetch_link_eq_website (url : String)
    (pipeline : Except String RawExtract)
    (hc : classify_url url = some "Website") (hv : valid_scheme url = true) :
    fetch_link url pipeline
      = match pipeline with
        | .ok raw => .links (extract_links (remove_duplicate_links raw.links))
        | .error e => .errorBody ("Error during crawling: " ++ e) url := by
  unfold fetch_link
  rw [hc, hv]
  simp

lemma takeWhile_replicate_a (m : Nat) :
    (List.replicate m 'a').takeWhile (fun c => c ≠ '#') = List.replicate m 'a' := by
  induction m with
  | zero => rfl
  | succ m ih =>
    rw [List.replicate_succ, List.takeWhile_cons]
    simp [ih]

lemma mkLinks_key (i : Nat) :
    linkKey ⟨some (String.mk (List.replicate (i + 1) 'a')), some ""⟩
      = String.mk (List.replicate (i + 1) 'a') := by
  simp only [linkKey, Option.getD_some, stripFragment]
  rw [takeWhile_replicate_a]

lemma mkLinks_key_ne (i : Nat) :
    linkKey ⟨some (String.mk (List.replicate (i + 1) 'a')), some ""⟩ ≠ "" := by
  rw [mkLinks_key]
  intro h
  have := congrArg String.data h
  simp at this

lemma mkLinks_keys_nodup (n : Nat) : ((mkLinks n).map linkKey).Nodup := by
  rw [mkLinks, List.map_map]
  have heq : (linkKey ∘ fun i =>
        (⟨some (String.mk (List.replicate (i + 1) 'a')), some ""⟩ : Link))
      = fun i => String.mk (List.replicate (i + 1) 'a') := by
    funext i
    exact mkLinks_key i
  rw [heq]
  apply List.Nodup.map
  · intro i j hij
    have := congrArg String.data hij
    simp only [] at this
    have hlen := congrArg List.length this
    simp only [List.length_replicate] at hlen
    omega
  · exact List.nodup_range n

lemma rdl_mkLinks (n : Nat) :
    remove_duplicate_links (mkLinks n) = mkLinks n := by
  rw [remove_duplicate_links_eq_rdlAux]
  apply rdlAux_eq_self
  · intro l hl
    rcases List.mem_map.1 hl with ⟨i, _, rfl⟩
    exact mkLinks_key_ne i
  · exact mkLinks_keys_nodup n
  · intro l _
    simp

lemma extract_mkLinks_length (n : Nat) :
    (extract_links (mkLinks n)).length = n := by
  have hsome : ∀ l ∈ mkLinks n, l.href.isSome := by
    intro l hl
    rcases List.mem_map.1 hl with ⟨i, _, rfl⟩
    simp
  rw [extract_links_eq_map _ hsome, List.length_map, mkLinks, List.length_map,
    List.length_range]

/-! ## Claim theorems -/

/-- C1: `remove_duplicate_links` is the stable deduplication keyed on the
fragment-stripped `href`: entries with an empty key are excluded, the
first-seen entry of each key is retained (later duplicates contribute
nothing), and output order is first-occurrence order of the keys — i.e. the
source function coincides with the spec-side description `dedup_spec`. -/
theorem remove_duplicate_links_matches_spec (links : List Link) :
    remove_duplicate_links links = dedup_spec links := by
  rw [remove_duplicate_links_eq_rdlAux, rdlAux_eq_dedup_spec]
  have hfilter : links.filter (fun x => linkKey x ∉ ([] : List String)) = links := by
    apply List.filter_eq_self.2
    intro a _
    simp
  rw [hfilter]

/-- C7: `remove_duplicate_links` is idempotent. -/
theorem remove_duplicate_links_idempotent (links : List Link) :
    remove_duplicate_links (remove_duplicate_links links)
      = remove_duplicate_links links := by
  rw [remove_duplicate_links_eq_rdlAux links,
    remove_duplicate_links_eq_rdlAux (rdlAux [] links)]
  apply rdlAux_eq_self
  · intro l hl
    exact (rdlAux_mem [] links l hl).1
  · exact rdlAux_keys_nodup [] links
  · intro l _
    simp

/-- C8: the dedup never lengthens the list, its output keys (fragment-stripped
hrefs) are pairwise distinct and non-empty, and `extract_links` on the dedup
output drops nothing: it is exactly the projection to the stored `href`
values, a list of pairwise distinct non-empty strings no longer than the
input. -/
theorem dedup_extract_properties (links : List Link) :
    (remove_duplicate_links links).length ≤ links.length ∧
    ((remove_duplicate_links links).map linkKey).Nodup ∧
    (∀ l ∈ remove_duplicate_links links, linkKey l ≠ "") ∧
    extract_links (remove_duplicate_links links)
      = (remove_duplicate_links links).map (fun l => l.href.getD "") ∧
    (extract_links (remove_duplicate_links links)).length
      = (remove_duplicate_links links).length ∧
    (extract_links (remove_duplicate_links links)).Nodup ∧
    (∀ s ∈ extract_links (remove_duplicate_links links), s ≠ "") ∧
    (extract_links (remove_duplicate_links links)).length ≤ links.length := by
  have hrw := remove_duplicate_links_eq_rdlAux links
  have hkey : ∀ l ∈ remove_duplicate_links links, linkKey l ≠ "" := by
    rw [hrw]
    intro l hl
    exact (rdlAux_mem [] links l hl).1
  have hsome : ∀ l ∈ remove_duplicate_links links, l.href.isSome :=
    fun l hl => href_isSome_of_key_ne l (hkey l hl)
  have hlen : (remove_duplicate_links links).length ≤ links.length := by
    rw [hrw]
    exact (rdlAux_sublist [] links).length_le
  have hnodup : ((remove_duplicate_links links).map linkKey).Nodup := by
    rw [hrw]
    exact rdlAux_keys_nodup [] links
  have hmap := extract_links_eq_map _ hsome
  have hexlen : (extract_links (remove_duplicate_links links)).length
      = (remove_duplicate_links links).length := by
    rw [hmap, List.length_map]
  refine ⟨hlen, hnodup, hkey, hmap, hexlen, ?_, ?_, ?_⟩
  · exact extract_nodup _ hnodup hsome
  · exact mem_extract_ne_empty _ hkey
  · rw [hexlen]
    exact hlen

/-- Witness for C8 at a concrete input. -/
theorem dedup_extract_properties_witness :
    (remove_duplicate_links [⟨some "/y#f", some "t"⟩, ⟨some "/y", some "u"⟩]).length ≤ 2 ∧
    ("/y#f" : String) ≠ "" :=
  ⟨(dedup_extract_properties [⟨some "/y#f", some "t"⟩, ⟨some "/y", some "u"⟩]).1,
   (dedup_extract_properties [⟨some "/y#f", some "t"⟩, ⟨some "/y", some "u"⟩]).2.2.2.2.2.2.1
     "/y#f" (by decide)⟩

/-- C10: every element of the dedup output is an element of the input kept
verbatim — the output is a sublist of the input, so in particular the
retained link's `href` keeps its fragment suffix and its `text` is the
original text; the stripped key is used only for comparison. -/
theorem remove_duplicate_links_sublist (links : List Link) :
    (remove_duplicate_links links).Sublist links ∧
    ∀ l ∈ remove_duplicate_links links, l ∈ links := by
  rw [remove_duplicate_links_eq_rdlAux]
  refine ⟨rdlAux_sublist [] links, ?_⟩
  intro l hl
  exact (rdlAux_sublist [] links).mem hl

/-- Witness for C10 at a concrete input. -/
theorem remove_duplicate_links_sublist_witness :
    (⟨some "/z#frag", some "lbl"⟩ : Link) ∈ [(⟨some "/z#frag", some "lbl"⟩ : Link)] :=
  (remove_duplicate_links_sublist [⟨some "/z#frag", some "lbl"⟩]).2 _ (by decide)

/-- C2 counterexample: on the spec's own scenario — two anchors `/x#a` and
`/x#b` with the same fragment-stripped target — the dedup keeps the first
link verbatim; no link in the output has `href = "/x"`, refuting the
claimed rewrite of `href` to the stripped form. -/
theorem dedup_fragment_counterexample :
    remove_duplicate_links
        [⟨some "/x#a", some "First"⟩, ⟨some "/x#b", some "Second"⟩]
      = [⟨some "/x#a", some "First"⟩] ∧
    ((remove_duplicate_links
        [⟨some "/x#a", some "First"⟩, ⟨some "/x#b", some "Second"⟩]).map
      Link.href).contains (some "/x") = false := by
  constructor
  · decide
  · decide

/-- C2 amended: two links sharing a non-empty fragment-stripped key collapse
to exactly the first link, stored unchanged (href with its fragment intact,
text of the first anchor); the stripped key `/x` is only the comparison key. -/
theorem dedup_two_links_keeps_first (a b : Link)
    (hne : linkKey a ≠ "") (heq : linkKey a = linkKey b) :
    remove_duplicate_links [a, b] = [a] := by
  rw [remove_duplicate_links_eq_rdlAux]
  rw [rdlAux, if_pos ⟨hne, by simp⟩]
  have hcond : ¬ (linkKey b ≠ "" ∧ linkKey b ∉ [linkKey a]) := by
    intro hc
    exact hc.2 (List.mem_singleton.2 heq.symm)
  rw [rdlAux, if_neg hcond]
  rfl

/-- Witness for the amended C2 at the spec's concrete scenario. -/
theorem dedup_two_links_keeps_first_witness :
    remove_duplicate_links
        [⟨some "/x#a", some "First"⟩, ⟨some "/x#b", some "Second"⟩]
      = [⟨some "/x#a", some "First"⟩] :=
  dedup_two_links_keeps_first _ _ (by decide) (by decide)

/-- C4: `classify_url` is a total function of the URL string deciding only
on the parsed path: whenever the URL parses with path `p`, the result is
`"Website"` exactly when `p` is empty or `"/"` and `"Web Page"` in every
other case — scheme-less and otherwise odd URLs included, as long as they
parse structurally. -/
theorem classify_url_by_path (url p : String) (h : urlparse_path url = some p) :
    (classify_url url = some "Website" ↔ (p = "" ∨ p = "/")) ∧
    (classify_url url = some "Web Page" ↔ ¬ (p = "" ∨ p = "/")) := by
  unfold classify_url
  rw [h]
  by_cases hp : p = "" ∨ p = "/" <;> simp [hp]

/-- Witness for C4: a root URL, a root URL with trailing slash, an inner
page, and a scheme-less malformed string. -/
theorem classify_url_by_path_witness :
    classify_url "https://example.com" = some "Website" ∧
    classify_url "https://example.com/" = some "Website" ∧
    classify_url "https://example.com/page" = some "Web Page" ∧
    classify_url "not-a-url" = some "Web Page" :=
  ⟨(classify_url_by_path "https://example.com" "" (by decide)).1.2 (Or.inl rfl),
   (classify_url_by_path "https://example.com/" "/" (by decide)).1.2 (Or.inr rfl),
   (classify_url_by_path "https://example.com/page" "/page" (by decide)).2.2 (by decide),
   (classify_url_by_path "not-a-url" "not-a-url" (by decide)).2.2 (by decide)⟩

/-- C3: the size caps are applied only in the full-bundle flow: the `/crawl`
result always satisfies the 10,000-character text cap, the 100-link cap and
a non-negative crawl time (the later clock sample being no earlier than the
first), while `/fetch_link` on a valid root URL returns the sequence
computed from the raw, uncapped link list — so 101 distinct raw links come
back as 101 strings, past the full-bundle cap. -/
theorem caps_only_in_full_bundle (url : String) (raw : RawExtract)
    (t0 t1 : Int) (ht : t0 ≤ t1) (hv : valid_scheme url = true)
    (hc : classify_url url = some "Website") :
    crawl url (.ok raw) t0 t1 = .ok (mkCrawlResult url raw t0 t1) ∧
    (mkCrawlResult url raw t0 t1).text.length ≤ 10000 ∧
    (mkCrawlResult url raw t0 t1).links.length ≤ 100 ∧
    0 ≤ (mkCrawlResult url raw t0 t1).crawl_time ∧
    fetch_link url (.ok raw)
      = .links (extract_links (remove_duplicate_links raw.links)) ∧
    (extract_links (remove_duplicate_links (mkLinks 101))).length = 101 := by
  refine ⟨?_, ?_, ?_, ?_, ?_, ?_⟩
  · rw [crawl_eq_of_valid url _ t0 t1 hv]
  · simp only [mkCrawlResult]
    by_cases h : raw.text.length > 10000
    · rw [if_pos h, String.take_eq]
      have hlen : (String.mk (raw.text.data.take 10000)).length
          = (raw.text.data.take 10000).length := rfl
      rw [hlen, List.length_take]
      omega
    · rw [if_neg h]
      omega
  · simp only [mkCrawlResult]
    by_cases h : raw.links.length > 100
    · rw [if_pos h, List.length_take]
      omega
    · rw [if_neg h]
      omega
  · simp only [mkCrawlResult]
    omega
  · rw [fetch_link_eq_website url _ hc hv]
  · rw [rdl_mkLinks, extract_mkLinks_length]

/-- Witness for C3 at a concrete root URL, raw bundle and clock samples. -/
theorem caps_only_in_full_bundle_witness :
    (mkCrawlResult "https://example.com/"
        ⟨"t", "<html></html>", "body", [⟨some "/a", some "x"⟩], []⟩ 3 7).links.length
      ≤ 100 ∧
    (extract_links (remove_duplicate_links (mkLinks 101))).length = 101 :=
  ⟨(caps_only_in_full_bundle "https://example.com/"
      ⟨"t", "<html></html>", "body", [⟨some "/a", some "x"⟩], []⟩ 3 7
      (by decide) (by decide) (by decide)).2.2.1,
   (caps_only_in_full_bundle "https://example.com/"
      ⟨"t", "<html></html>", "body", [⟨some "/a", some "x"⟩], []⟩ 3 7
      (by decide) (by decide) (by decide)).2.2.2.2.2⟩

/-- C5: `/fetch_link` classifies before validating or fetching: whenever the
URL classifies as `"Web Page"`, the handler returns exactly the input URL,
for every possible pipeline outcome (so no browser session is consulted)
and without any scheme validation error — scheme-less URLs included. -/
theorem fetch_link_inner_page_passthrough (url : String)
    (h : classify_url url = some "Web Page") :
    ∀ pipeline : Except String RawExtract,
      fetch_link url pipeline = .passthrough url := by
  intro pipeline
  exact fetch_link_eq_not_website url pipeline "Web Page" h (by decide)

/-- Witness for C5: the spec's scenario URL and a scheme-less URL, each
under a failing or succeeding pipeline. -/
theorem fetch_link_inner_page_passthrough_witness :
    fetch_link "https://example.com/page" (.error "launch failed")
      = .passthrough "https://example.com/page" ∧
    fetch_link "https://example.com/page" (.ok ⟨"", "", "", [], []⟩)
      = .passthrough "https://example.com/page" ∧
    fetch_link "example.com/page" (.error "no browser")
      = .passthrough "example.com/page" :=
  ⟨fetch_link_inner_page_passthrough "https://example.com/page" (by decide) _,
   fetch_link_inner_page_passthrough "https://example.com/page" (by decide) _,
   fetch_link_inner_page_passthrough "example.com/page" (by decide) _⟩

/-- C6: error policy of `/crawl`: a URL without an `http://`/`https://`
scheme fails hard with the 400 validation error whatever the pipeline would
have done (no browser resource is consulted), while under a valid scheme
every pipeline exception is caught and returned as the normal
`{error, url}` body — never re-raised. -/
theorem crawl_error_policy (url : String) (t0 t1 : Int) :
    (valid_scheme url = false →
      ∀ pipeline : Except String RawExtract,
        crawl url pipeline t0 t1
          = .badRequest "URL must start with http:// or https://") ∧
    (valid_scheme url = true →
      ∀ e : String,
        crawl url (.error e) t0 t1
          = .errorBody ("Error during crawling: " ++ e) url) := by
  constructor
  · intro hv pipeline
    exact crawl_eq_of_invalid url pipeline t0 t1 hv
  · intro hv e
    rw [crawl_eq_of_valid url _ t0 t1 hv]

/-- Witness for C6: a scheme-less URL is rejected with 400; a valid URL
whose navigation times out yields the error body. -/
theorem crawl_error_policy_witness :
    crawl "not-a-url" (.error "boom") 0 1
      = .badRequest "URL must start with http:// or https://" ∧
    crawl "https://example.com" (.error "Timeout 120000ms exceeded") 0 1
      = .errorBody ("Error during crawling: " ++ "Timeout 120000ms exceeded")
          "https://example.com" :=
  ⟨(crawl_error_policy "not-a-url" 0 1).1 (by decide) _,
   (crawl_error_policy "https://example.com" 0 1).2 (by decide) _⟩

/-- C9: on every exit path of both flows the acquired browser resources are
released before the response or error body goes out: whichever step fails —
or none — the `/crawl` trace and the root-branch `/fetch_link` trace end
with the release event immediately followed by the response or the error
response, and the inner-page branch of `/fetch_link` never launches a
browser at all. -/
theorem release_on_every_path (fate : Option (Fin 10)) :
    (∃ pre, crawlTrace fate = pre ++ [Ev.released, Ev.responded] ∨
      crawlTrace fate = pre ++ [Ev.released, Ev.errorResponded]) ∧
    (∃ pre, fetchLinkTrace false fate = pre ++ [Ev.released, Ev.responded] ∨
      fetchLinkTrace false fate = pre ++ [Ev.released, Ev.errorResponded]) ∧
    fetchLinkTrace true fate = [Ev.responded] ∧
    (fetchLinkTrace true fate).contains Ev.launched = false := by
  have hcrawl : ∃ pre, crawlTrace fate = pre ++ [Ev.released, Ev.responded] ∨
      crawlTrace fate = pre ++ [Ev.released, Ev.errorResponded] := by
    cases fate with
    | none =>
      refine ⟨bodySteps, Or.inl ?_⟩
      simp [crawlTrace, tryExcept, withPlaywright, runBody]
    | some k =>
      refine ⟨bodySteps.take k.val, Or.inr ?_⟩
      simp [crawlTrace, tryExcept, withPlaywright, runBody]
  have hsame : fetchLinkTrace false fate = crawlTrace fate := rfl
  refine ⟨hcrawl, ?_, rfl, rfl⟩
  rw [hsame]
  exact hcrawl

end Crawler
